import Mathlib

/-!
Verification of the conversation storage and segmentation subsystem of the
Brothers AI chat client (module `src/lib/database-service` of the repository,
backed by the `chat_history` table of `NEW_DATABASE_SCHEMA.sql`).

The embedding models the `chat_history` table as a list of rows in the
`chat_rank`-ascending order that every query of the module requests.  Calls to
the hosted database are modelled by pure functions over that list, with an
explicit boolean for a failing read where the source distinguishes that case.
Timestamp rendering (`formatTime` / `formatTimestamp` in the source, which call
locale-dependent `Date` methods) is abstracted as function parameters
`fmtTime` / `fmtTimestamp`; no claim constrains the rendered timestamp text.
-/

/-- A row of the `chat_history` table (`DbChatHistory` in the source):
one user/AI exchange. `chat_rank` is the per-user sequence number
(`INTEGER` in the schema; the module only ever produces values `>= 1`,
modelled as `Nat`). -/
structure DbChatHistory where
  chat_id : String
  user_id : String
  user_request : String
  ai_response : String
  chat_rank : Nat
  created_at : String
  updated_at : String
deriving DecidableEq, Repr

/-- A file attachment as carried on display messages (`FileAttachment`). -/
structure FileAttachment where
  id : String
  name : String
  size : Nat
  type : String
  url : String
deriving DecidableEq, Repr

/-- Message role: the source uses the string union `'user' | 'assistant'`. -/
inductive Role where
  | user
  | assistant
deriving DecidableEq, Repr

/-- A display message (`Message` in the source). `attachments` is optional
and is always `undefined` (`none`) on the paths modelled here. -/
structure Message where
  id : String
  content : String
  role : Role
  timestamp : String
  attachments : Option (List FileAttachment)
deriving DecidableEq, Repr

/-- A reconstructed conversation (`Conversation` in the source). -/
structure Conversation where
  id : String
  title : String
  timestamp : String
  preview : String
  messages : List Message
  sessionId : String
  startRank : Nat
deriving DecidableEq, Repr

/-- The module-level mutable session state: `currentSessionId` and
`currentSessionStartRank` (`0` plays the role of the unset anchor, as in the
source initialisation). -/
structure SessionState where
  currentSessionId : Option String
  currentSessionStartRank : Nat
deriving DecidableEq, Repr

/-! ### Decimal rendering of ranks

JavaScript template literals coerce a number to its decimal string
(`` `${userId}${nextRank}` ``).  `decDigitsAux` computes the little-endian
decimal digit list with explicit fuel so that it is structurally recursive. -/

/-- Little-endian decimal digits of `n`, with fuel; `[]` for `0`. -/
def decDigitsAux : Nat → Nat → List Nat
  | 0, _ => []
  | fuel + 1, n => if n = 0 then [] else n % 10 :: decDigitsAux fuel (n / 10)

/-- Little-endian decimal digits of `n` (`[]` for `0`). -/
def decDigits (n : Nat) : List Nat :=
  decDigitsAux n n

/-- Value of a little-endian digit list. -/
def decValue (l : List Nat) : Nat :=
  l.foldr (fun d acc => d + 10 * acc) 0

theorem decValue_decDigitsAux (fuel n : Nat) (h : n ≤ fuel) :
    decValue (decDigitsAux fuel n) = n := by
  induction fuel generalizing n with
  | zero => interval_cases n; simp [decDigitsAux, decValue]
  | succ fuel ih =>
    by_cases hn : n = 0
    · simp [decDigitsAux, hn, decValue]
    · have hdiv : n / 10 ≤ fuel := by
        have h1 : n / 10 < n := Nat.div_lt_self (Nat.pos_of_ne_zero hn) (by omega)
        omega
      simp only [decDigitsAux, hn, if_false, decValue, List.foldr_cons]
      have := ih (n / 10) hdiv
      simp only [decValue] at this
      omega

theorem decValue_decDigits (n : Nat) : decValue (decDigits n) = n :=
  decValue_decDigitsAux n n (Nat.le_refl n)

theorem decDigits_injective : Function.Injective decDigits := by
  intro a b h
  have ha := decValue_decDigits a
  have hb := decValue_decDigits b
  rw [h] at ha
  omega

theorem decDigitsAux_lt_ten (fuel n : Nat) :
    ∀ d ∈ decDigitsAux fuel n, d < 10 := by
  induction fuel generalizing n with
  | zero => simp [decDigitsAux]
  | succ fuel ih =>
    by_cases hn : n = 0
    · simp [decDigitsAux, hn]
    · simp only [decDigitsAux, hn, if_false, List.mem_cons]
      rintro d (rfl | hd)
      · exact Nat.mod_lt _ (by omega)
      · exact ih _ d hd

theorem decDigits_ne_nil {n : Nat} (hn : n ≠ 0) : decDigits n ≠ [] := by
  obtain ⟨m, rfl⟩ := Nat.exists_eq_succ_of_ne_zero hn
  simp [decDigits, decDigitsAux]

/-- Decimal string of a natural number, as produced by JavaScript string
coercion of a (nonnegative integral) number. -/
def natToString (n : Nat) : String :=
  if n = 0 then "0" else ((decDigits n).map Nat.digitChar).reverse.asString

theorem digitChar_inj_lt :
    ∀ a < 10, ∀ b < 10, Nat.digitChar a = Nat.digitChar b → a = b := by
  decide

theorem map_digitChar_inj {l₁ l₂ : List Nat} (h₁ : ∀ d ∈ l₁, d < 10)
    (h₂ : ∀ d ∈ l₂, d < 10) (h : l₁.map Nat.digitChar = l₂.map Nat.digitChar) :
    l₁ = l₂ := by
  induction l₁ generalizing l₂ with
  | nil => cases l₂ <;> simp_all
  | cons a t ih =>
    cases l₂ with
    | nil => simp_all
    | cons b t₂ =>
      simp only [List.map_cons, List.cons.injEq] at h
      have ha : a < 10 := h₁ a (by simp)
      have hb : b < 10 := h₂ b (by simp)
      have := digitChar_inj_lt a ha b hb h.1
      have ht := ih (fun d hd => h₁ d (by simp [hd])) (fun d hd => h₂ d (by simp [hd])) h.2
      simp [this, ht]

theorem natToString_injective : Function.Injective natToString := by
  intro a b h
  unfold natToString at h
  by_cases ha : a = 0 <;> by_cases hb : b = 0
  · omega
  · exfalso
    simp only [ha, if_true, hb, if_false] at h
    have hchars : ['0'] = ((decDigits b).map Nat.digitChar).reverse := by
      have := congrArg String.data h
      simpa [List.asString] using this
    have hdig : decDigits b = [0] := by
      have : (decDigits b).map Nat.digitChar = [Nat.digitChar 0] := by
        have := congrArg List.reverse hchars
        simpa using this.symm
      have h0 : ([0] : List Nat).map Nat.digitChar = [Nat.digitChar 0] := by simp
      exact map_digitChar_inj (decDigitsAux_lt_ten b b) (by simp) (this.trans h0.symm)
    have := decValue_decDigits b
    rw [hdig] at this
    simp [decValue] at this
    omega
  · exfalso
    simp only [ha, if_false, hb, if_true] at h
    have hchars : ((decDigits a).map Nat.digitChar).reverse = ['0'] := by
      have := congrArg String.data h
      simpa [List.asString] using this
    have hdig : decDigits a = [0] := by
      have : (decDigits a).map Nat.digitChar = [Nat.digitChar 0] := by
        have := congrArg List.reverse hchars
        simpa using this
      have h0 : ([0] : List Nat).map Nat.digitChar = [Nat.digitChar 0] := by simp
      exact map_digitChar_inj (decDigitsAux_lt_ten a a) (by simp) (this.trans h0.symm)
    have := decValue_decDigits a
    rw [hdig] at this
    simp [decValue] at this
    omega
  · simp only [ha, if_false, hb, if_false] at h
    have hchars := congrArg String.data h
    simp only [List.asString] at hchars
    have hrev : ((decDigits a).map Nat.digitChar) = ((decDigits b).map Nat.digitChar) := by
      have := congrArg List.reverse hchars
      simpa using this
    exact decDigits_injective
      (map_digitChar_inj (decDigitsAux_lt_ten a a) (decDigitsAux_lt_ten b b) hrev)

/-- The chat id derived from `(userId, rank)`: the template literal
`` `${userId}${nextRank}` `` of `createChatEntry` (and of the SQL helper
`create_chat_entry`: `p_user_id || v_chat_rank`). -/
def mkChatId (userId : String) (rank : Nat) : String :=
  userId ++ natToString rank

/-! ### Conversation token parsing

`deleteConversation` and `getConversationMessages` recover the start rank from
a conversation id with
`conversationId.replace('conv_', '').replace('session_', '')` followed by
`parseInt(rankStr, 10)` and an `isNaN` check.  JavaScript `replace` with a
string pattern removes the first occurrence only; `parseInt` reads the leading
decimal digits and yields `NaN` when there are none (the tokens this module
produces are `conv_` followed by decimal digits, so sign and whitespace
handling of `parseInt` never come into play and are not modelled). -/

/-- Remove the first occurrence of `pat` (JavaScript
`s.replace(pat, '')` with a string pattern). -/
def replaceOnce (pat : List Char) : List Char → List Char
  | [] => []
  | c :: rest =>
    if pat.isPrefixOf (c :: rest) then (c :: rest).drop pat.length
    else c :: replaceOnce pat rest

/-- `parseInt(s, 10)` on the tokens of this module: the leading decimal
digits, `none` (for `NaN`) when there are none. -/
def parseIntDec (s : List Char) : Option Nat :=
  let ds := s.takeWhile Char.isDigit
  if ds.isEmpty then none
  else some (ds.foldl (fun a c => 10 * a + (c.toNat - 48)) 0)

/-- Extraction of the start rank from a conversation token, as done at the
top of both `deleteConversation` and `getConversationMessages`. -/
def parseConversationRank (conversationId : String) : Option Nat :=
  parseIntDec (replaceOnce "session_".data (replaceOnce "conv_".data conversationId.data))

/-! ### The log store

The `chat_history` table is modelled as a `List DbChatHistory` in the
`chat_rank`-ascending order that every query of the module requests.  The
unique keys of the schema are the primary key `chat_id` and the unique index
`idx_chat_history_user_rank` on `(user_id, chat_rank)`. -/

instance : Inhabited DbChatHistory :=
  ⟨⟨"", "", "", "", 0, "", ""⟩⟩

/-- The max-rank query of `createChatEntry` / `saveCurrentSession`:
`select chat_rank, eq user_id, order desc, limit 1, maybeSingle` —
the greatest `chat_rank` of the user, `none` when the user has no rows. -/
def maxChatRank (store : List DbChatHistory) (userId : String) : Option Nat :=
  ((store.filter (fun r => r.user_id == userId)).map (fun r => r.chat_rank)).max?

/-- A row collides with the table keys: primary key `chat_id`, or the unique
index on `(user_id, chat_rank)`. -/
def hasKeyConflict (store : List DbChatHistory) (row : DbChatHistory) : Bool :=
  store.any (fun r =>
    r.chat_id == row.chat_id || (r.user_id == row.user_id && r.chat_rank == row.chat_rank))

/-- `insert` into `chat_history`: fails (`none`, the `DuplicateKey` error)
when a unique key collides, otherwise adds the row. -/
def insertRow (store : List DbChatHistory) (row : DbChatHistory) :
    Option (List DbChatHistory) :=
  if hasKeyConflict store row then none else some (store ++ [row])

/-! ### Session tracker -/

/-- `startNewSession()`: builds
`` `session_${Date.now()}_${Math.random().toString(36).substr(2, 9)}` ``,
stores it in `currentSessionId` and returns it.  `now` is the clock reading
and `rand` the random suffix.  The source does not touch
`currentSessionStartRank` here. -/
def startNewSession (now : Nat) (rand : String) (st : SessionState) :
    String × SessionState :=
  let sid := "session_" ++ natToString now ++ "_" ++ rand
  (sid, { st with currentSessionId := some sid })

/-- `getCurrentSessionId()`. -/
def getCurrentSessionId (st : SessionState) : Option String :=
  st.currentSessionId

/-- `setCurrentSession(sessionId, startRank)`. -/
def setCurrentSession (sessionId : String) (startRank : Nat) (_ : SessionState) :
    SessionState :=
  { currentSessionId := some sessionId, currentSessionStartRank := startRank }

/-- `clearCurrentSession()`. -/
def clearCurrentSession (_ : SessionState) : SessionState :=
  { currentSessionId := none, currentSessionStartRank := 0 }

/-! ### Appending entries -/

/-- `createChatEntry(userId, userRequest, aiResponse)`.

`readFail` is true when the max-rank read fails (the source then returns
`null` before doing anything else).  `readStore` is the table contents the
max-rank query sees and `insertStore` the contents the insert runs against —
they differ exactly when a concurrent append lands between the two calls.
`now`/`rand` feed the auto-started session id and `nowIso` the row
timestamps.  Returns the `chat_id` (or `none` on failure), the table after
the call, and the session state after the call. -/
def createChatEntry (readFail : Bool) (readStore insertStore : List DbChatHistory)
    (now : Nat) (rand : String) (nowIso : String) (st : SessionState)
    (userId userRequest aiResponse : String) :
    Option String × List DbChatHistory × SessionState :=
  if readFail then (none, insertStore, st)
  else
    let nextRank := (maxChatRank readStore userId).getD 0 + 1
    let chatId := mkChatId userId nextRank
    let st' :=
      if st.currentSessionId.isNone then
        { currentSessionId := some ("session_" ++ natToString now ++ "_" ++ rand),
          currentSessionStartRank := nextRank }
      else st
    match insertRow insertStore
        { chat_id := chatId, user_id := userId, user_request := userRequest,
          ai_response := aiResponse, chat_rank := nextRank,
          created_at := nowIso, updated_at := nowIso } with
    | none => (none, insertStore, st')
    | some store' => (some chatId, store', st')

/-- `pat` occurs inside `s` (JavaScript `s.includes(pat)`). -/
def hasInfix (pat : List Char) : List Char → Bool
  | [] => pat.isEmpty
  | c :: rest => pat.isPrefixOf (c :: rest) || hasInfix pat rest

/-- The default-message filter of `saveCurrentSession`:
`m.content === 'Who are you?' || m.content.includes("I am Brother's AI")`. -/
def isDefaultMessage (m : Message) : Bool :=
  m.content == "Who are you?" || hasInfix "I am Brother\x27s AI".data m.content.data

/-- The message-pair loop of `saveCurrentSession`: walks the messages two at
a time; a (user, assistant) pair is inserted at `nextRank` and the rank
advances; any other pair is skipped without advancing the rank; an insert
error aborts with `false`. -/
def savePairs (userId nowIso : String) (nextRank : Nat)
    (store : List DbChatHistory) : List Message → Bool × List DbChatHistory
  | [] => (true, store)
  | [_] => (true, store)
  | um :: am :: rest =>
    if um.role == Role.user && am.role == Role.assistant then
      match insertRow store
          { chat_id := mkChatId userId nextRank, user_id := userId,
            user_request := um.content, ai_response := am.content,
            chat_rank := nextRank, created_at := nowIso, updated_at := nowIso } with
      | none => (false, store)
      | some store' => savePairs userId nowIso (nextRank + 1) store' rest
    else savePairs userId nowIso nextRank store rest

/-- `saveCurrentSession(userId, messages)`.

`readFail` is true when the max-rank read fails; the source destructures only
`data` from that response, so a failure leaves `maxRankData` as `null` and the
code continues with `nextRank = (null?.chat_rank || 0) + 1 = 1`. -/
def saveCurrentSession (readFail : Bool) (store : List DbChatHistory)
    (nowIso : String) (userId : String) (messages : List Message) :
    Bool × List DbChatHistory :=
  if messages.isEmpty then (true, store)
  else
    let nonDefault := messages.filter (fun m => !(isDefaultMessage m))
    if nonDefault.isEmpty then (true, store)
    else
      let maxData : Option Nat := if readFail then none else maxChatRank store userId
      let nextRank := maxData.getD 0 + 1
      savePairs userId nowIso nextRank store nonDefault

/-! ### Conversation segmentation -/

/-- The user-role display message pushed for a chat entry:
id `` `${entry.chat_id}_user` ``, content `entry.user_request`. -/
def userMessageOf (fmtTime : String → String) (entry : DbChatHistory) : Message :=
  { id := entry.chat_id ++ "_user", content := entry.user_request,
    role := Role.user, timestamp := fmtTime entry.created_at, attachments := none }

/-- The assistant-role display message pushed for a chat entry:
id `` `${entry.chat_id}_assistant` ``, content `entry.ai_response`. -/
def assistantMessageOf (fmtTime : String → String) (entry : DbChatHistory) : Message :=
  { id := entry.chat_id ++ "_assistant", content := entry.ai_response,
    role := Role.assistant, timestamp := fmtTime entry.created_at, attachments := none }

/-- The two display messages a chat entry expands into (the push pair shared
verbatim by `createConversationFromEntries` and `getConversationMessages`). -/
def expandEntry (fmtTime : String → String) (entry : DbChatHistory) : List Message :=
  [userMessageOf fmtTime entry, assistantMessageOf fmtTime entry]

/-- The accumulator `currentConversation` of `fetchConversations`. -/
structure RunAcc where
  startRank : Nat
  entries : List DbChatHistory
  sessionId : String
deriving DecidableEq, Repr

/-- A freshly started run: `{ startRank: entry.chat_rank, entries: [entry],
sessionId: `conv_${entry.chat_rank}` }`. -/
def runStart (entry : DbChatHistory) : RunAcc :=
  { startRank := entry.chat_rank, entries := [entry],
    sessionId := "conv_" ++ natToString entry.chat_rank }

/-- The grouping loop of `fetchConversations` from the second iteration on:
`prev` is the previous input entry, `cur` the open run.  A new run starts
exactly when `entry.chat_rank !== prevEntry.chat_rank + 1`; the open run is
pushed when a new one starts and at the end of the input. -/
def segLoop (prev : DbChatHistory) (cur : RunAcc) :
    List DbChatHistory → List RunAcc
  | [] => [cur]
  | e :: rest =>
    if e.chat_rank = prev.chat_rank + 1 then
      segLoop e { cur with entries := cur.entries ++ [e] } rest
    else
      cur :: segLoop e (runStart e) rest

/-- The run list of `fetchConversations`, in input order (before the final
`reverse`).  The first entry always opens a run. -/
def segmentRuns : List DbChatHistory → List RunAcc
  | [] => []
  | e :: rest => segLoop e (runStart e) rest

/-- `substring(0, n)` plus the conditional `'...'` used for title (`n = 50`)
and preview (`n = 100`). -/
def truncateWithEllipsis (n : Nat) (s : String) : String :=
  (s.take n) ++ (if n < s.length then "..." else "")

/-- `createConversationFromEntries(data)`.  The source indexes
`data.entries[0]` and `data.entries[data.entries.length - 1]` directly; every
call site passes a nonempty `entries`, and the model totalises the two reads
with a default row. -/
def createConversationFromEntries (fmtTime fmtTimestamp : String → String)
    (data : RunAcc) : Conversation :=
  let messages := data.entries.flatMap (expandEntry fmtTime)
  let firstEntry := data.entries.headD default
  let lastEntry := data.entries.getLastD default
  { id := data.sessionId,
    title := truncateWithEllipsis 50 firstEntry.user_request,
    timestamp := fmtTimestamp lastEntry.created_at,
    preview := truncateWithEllipsis 100 firstEntry.user_request,
    messages := messages,
    sessionId := data.sessionId,
    startRank := data.startRank }

/-- `fetchConversations(userId)` applied to the result `chatHistory` of its
query (the rows of `userId`, `chat_rank` ascending): group into runs, convert
each run, and reverse so the newest conversation comes first. -/
def fetchConversations (fmtTime fmtTimestamp : String → String)
    (chatHistory : List DbChatHistory) : List Conversation :=
  ((segmentRuns chatHistory).map (createConversationFromEntries fmtTime fmtTimestamp)).reverse

/-! ### Deleting a conversation -/

/-- The `endRank` loop of `deleteConversation` over the fetched rank list
(which the source reads with `gte('chat_rank', startRank)` and **no user
filter**): at a rank equal to the current `endRank`, the loop extends the run
when the next fetched rank is `endRank + 1` and otherwise stops; at any other
rank it moves on. -/
def findEndRank (endRank : Nat) : List Nat → Nat
  | [] => endRank
  | [_] => endRank
  | r :: r2 :: rest =>
    if r = endRank then
      if r2 = endRank + 1 then findEndRank (endRank + 1) (r2 :: rest)
      else endRank
    else findEndRank endRank (r2 :: rest)

/-- `deleteConversation(conversationId)` against the whole table `store`
(rows in `chat_rank` order).  Neither the range fetch nor the delete carries
a `user_id` filter in the source; rows of every user with
`startRank <= chat_rank <= endRank` are removed.  Returns the success flag
and the table after the call.  (A failing fetch or delete returns `false`
with the table unchanged; the store model cannot fail, so those branches are
not represented.) -/
def deleteConversation (store : List DbChatHistory) (conversationId : String) :
    Bool × List DbChatHistory :=
  match parseConversationRank conversationId with
  | none => (false, store)
  | some startRank =>
    let ranks := (store.filter (fun r => startRank ≤ r.chat_rank)).map (fun r => r.chat_rank)
    if ranks.isEmpty then (false, store)
    else
      let endRank := findEndRank startRank ranks
      (true, store.filter (fun r => !(startRank ≤ r.chat_rank && r.chat_rank ≤ endRank)))

/-! ### Reading one conversation -/

/-- The `expectedRank` walk of `getConversationMessages`: take entries while
each has exactly the expected rank, stopping at the first gap. -/
def collectRun (expected : Nat) : List DbChatHistory → List DbChatHistory
  | [] => []
  | e :: rest =>
    if e.chat_rank = expected then e :: collectRun (expected + 1) rest
    else []

/-- `getConversationMessages(conversationId)` against the whole table
`store` (rows in `chat_rank` order).  As in `deleteConversation`, the fetch
has **no user filter** in the source. -/
def getConversationMessages (fmtTime : String → String)
    (store : List DbChatHistory) (conversationId : String) : List Message :=
  match parseConversationRank conversationId with
  | none => []
  | some startRank =>
    let entries := store.filter (fun r => startRank ≤ r.chat_rank)
    if entries.isEmpty then []
    else (collectRun startRank entries).flatMap (expandEntry fmtTime)

/-! ### Sample data shared by concrete statements -/

/-- A sample row of user `u` at rank `r`. -/
def sampleEntry (r : Nat) : DbChatHistory :=
  { chat_id := "u" ++ natToString r, user_id := "u",
    user_request := "q" ++ natToString r, ai_response := "a" ++ natToString r,
    chat_rank := r, created_at := "t", updated_at := "t" }

/-- The gapped sample log of the specification: ranks `[1, 2, 3, 5, 6]`. -/
def sampleLog : List DbChatHistory :=
  [sampleEntry 1, sampleEntry 2, sampleEntry 3, sampleEntry 5, sampleEntry 6]

/-- A row of user `alice@x.com` at rank 1. -/
def rowAlice : DbChatHistory :=
  { chat_id := "alice@x.com1", user_id := "alice@x.com", user_request := "qa",
    ai_response := "ra", chat_rank := 1, created_at := "t", updated_at := "t" }

/-- A row of a different user, `bob@y.com`, also at rank 1 (legal under the
unique index on `(user_id, chat_rank)`). -/
def rowBob : DbChatHistory :=
  { chat_id := "bob@y.com1", user_id := "bob@y.com", user_request := "qb",
    ai_response := "rb", chat_rank := 1, created_at := "t", updated_at := "t" }

theorem string_append_left_cancel {u s t : String} (h : u ++ s = u ++ t) : s = t := by
  have hd := congrArg String.data h
  simp only [String.data_append] at hd
  exact String.ext (List.append_cancel_left hd)

/-- C4 counterexample: the separator-free concatenation is not injective on
`(userId, rank)` pairs — user `u1` at rank 2 and user `u` at rank 12 share
the id `u12`. -/
theorem mkChatId_collision_across_users :
    mkChatId "u1" 2 = mkChatId "u" 12 ∧
      (("u1", (2 : Nat)) : String × Nat) ≠ ("u", 12) := by
  decide

/-- C4 (amended): for a fixed `userId`, the derived id is injective in the
rank — two entries of the **same** user with distinct ranks have distinct
ids. -/
theorem mkChatId_injective_same_user (u : String) {r₁ r₂ : Nat}
    (h : mkChatId u r₁ = mkChatId u r₂) : r₁ = r₂ := by
  unfold mkChatId at h
  exact natToString_injective (string_append_left_cancel h)

theorem mkChatId_injective_same_user_witness : (3 : Nat) = 3 :=
  mkChatId_injective_same_user "u" (by decide)

/-- C9 counterexample: `startNewSession` leaves `currentSessionStartRank`
untouched — after reattaching to a conversation anchored at rank 5, starting
a new session keeps the anchor at 5 instead of resetting it to the unset
value 0. -/
theorem startNewSession_keeps_anchor :
    (startNewSession 0 "r" ⟨some "s", 5⟩).2.currentSessionStartRank = 5 ∧
      (5 : Nat) ≠ 0 := by
  decide

/-- C9 (amended): `startNewSession` generates the id
`session_<now>_<rand>`, stores it in `currentSessionId` and returns it, and
leaves `currentSessionStartRank` exactly as it was (only
`setCurrentSession`, `clearCurrentSession` and the auto-start inside
`createChatEntry` write the anchor). -/
theorem startNewSession_spec (now : Nat) (rand : String) (st : SessionState) :
    (startNewSession now rand st).1 = "session_" ++ natToString now ++ "_" ++ rand ∧
    (startNewSession now rand st).2.currentSessionId = some ((startNewSession now rand st).1) ∧
    (startNewSession now rand st).2.currentSessionStartRank = st.currentSessionStartRank := by
  simp [startNewSession]

/-- C5: on the log with ranks `[1,2,3,5,6]` the segmenter produces exactly
the runs `{start 1, 3 entries}` and `{start 5, 2 entries}` (a gap of one
rank breaks contiguity), and `fetchConversations` returns them newest first,
`[start 5, start 1]`, each entry contributing two messages. -/
theorem segmenter_on_gapped_log (f g : String → String) :
    (segmentRuns sampleLog).map (fun r => (r.startRank, r.entries.length)) = [(1, 3), (5, 2)] ∧
    (fetchConversations f g sampleLog).map (fun c => c.startRank) = [5, 1] ∧
    (fetchConversations f g sampleLog).map (fun c => c.messages.length) = [4, 6] := by
  refine ⟨by decide, ?_, ?_⟩ <;>
    simp [fetchConversations, createConversationFromEntries, sampleLog, segmentRuns,
      segLoop, runStart, sampleEntry, expandEntry, natToString, decDigits, decDigitsAux]

/-- C1: `deleteConversation` carries no `user_id` filter, so deleting the
conversation that starts at rank 1 for one user also deletes the rank-1 row
of every other user.  On a table holding Alice's rank-1 row and Bob's rank-1
row, the token `conv_1` (Alice's conversation) deletes both rows, although
the claim requires Bob's row to be untouched. -/
theorem deleteConversation_removes_other_users_rows :
    deleteConversation [rowAlice, rowBob] "conv_1" = (true, []) ∧
      rowBob.user_id ≠ rowAlice.user_id := by
  decide

/-- C2 counterexample: a single rank collision is not recovered.  The
max-rank read sees an empty log (`nextRank = 1`), a concurrent append lands
first at rank 1, and the insert fails with `DuplicateKey`: `createChatEntry`
returns `null` at once — the entry is not stored at a re-fetched rank. -/
theorem createChatEntry_single_collision_fails :
    (createChatEntry false [] [rowAlice] 7 "r" "t" ⟨some "s", 0⟩ "alice@x.com" "q" "a").1
        = none ∧
    (createChatEntry false [] [rowAlice] 7 "r" "t" ⟨some "s", 0⟩ "alice@x.com" "q" "a").2.1
        = [rowAlice] := by
  decide

/-- C2 (amended): on a `DuplicateKey` insert failure `createChatEntry`
surfaces the failure immediately — it returns `null` after the single insert
attempt, leaving the table unchanged; there is no re-fetch and no retry. -/
theorem createChatEntry_no_retry_on_duplicate (readStore insertStore : List DbChatHistory)
    (now : Nat) (rand nowIso : String) (st : SessionState) (u req resp : String)
    (hdup : hasKeyConflict insertStore
      { chat_id := mkChatId u ((maxChatRank readStore u).getD 0 + 1), user_id := u,
        user_request := req, ai_response := resp,
        chat_rank := (maxChatRank readStore u).getD 0 + 1,
        created_at := nowIso, updated_at := nowIso } = true) :
    (createChatEntry false readStore insertStore now rand nowIso st u req resp).1 = none ∧
    (createChatEntry false readStore insertStore now rand nowIso st u req resp).2.1
        = insertStore := by
  simp [createChatEntry, insertRow, hdup]

theorem createChatEntry_no_retry_on_duplicate_witness :
    (createChatEntry false [] [rowAlice] 7 "r" "t" ⟨none, 0⟩ "alice@x.com" "q" "a").1 = none ∧
    (createChatEntry false [] [rowAlice] 7 "r" "t" ⟨none, 0⟩ "alice@x.com" "q" "a").2.1
        = [rowAlice] :=
  createChatEntry_no_retry_on_duplicate [] [rowAlice] 7 "r" "t" ⟨none, 0⟩
    "alice@x.com" "q" "a" (by decide)

/-- C3: `createChatEntry` does propagate a failed max-rank read (first
conjunct), but `saveCurrentSession` destructures only `data` from the same
query, so a failed read leaves `maxRankData = null` and the code continues
with `nextRank = 1`: on a log whose only row is at rank 2, a failed read
makes it insert a new row at rank 1 and report success, instead of
propagating the failure and inserting nothing. -/
theorem saveCurrentSession_defaults_to_rank_one_on_read_failure :
    createChatEntry true [] [sampleEntry 2] 0 "r" "t" ⟨none, 0⟩ "u" "hi" "yo"
        = (none, [sampleEntry 2], ⟨none, 0⟩) ∧
    saveCurrentSession true [sampleEntry 2] "t" "u"
        [⟨"m1", "hi", Role.user, "t", none⟩, ⟨"m2", "yo", Role.assistant, "t", none⟩]
      = (true, [sampleEntry 2,
          { chat_id := "u1", user_id := "u", user_request := "hi", ai_response := "yo",
            chat_rank := 1, created_at := "t", updated_at := "t" }]) := by
  decide

/-! ### Coverage and contiguity of the segmenter -/

theorem segLoop_flatten (rest : List DbChatHistory) :
    ∀ prev cur, ((segLoop prev cur rest).map RunAcc.entries).flatten = cur.entries ++ rest := by
  induction rest with
  | nil => intro prev cur; simp [segLoop]
  | cons e rest ih =>
    intro prev cur
    by_cases h : e.chat_rank = prev.chat_rank + 1
    · simp [segLoop, h, ih]
    · simp [segLoop, h, ih, runStart]

/-- C6: every input entry lands in exactly one run — the concatenation of
the entries of all runs, in order, is the input log itself; and across the
reversed (newest-first) conversation order the entries are a permutation of
the input, so none is dropped and none is duplicated. -/
theorem segmenter_coverage (l : List DbChatHistory) :
    ((segmentRuns l).map RunAcc.entries).flatten = l ∧
    ((((segmentRuns l).reverse).map RunAcc.entries).flatten).Perm l := by
  have h : ((segmentRuns l).map RunAcc.entries).flatten = l := by
    cases l with
    | nil => simp [segmentRuns]
    | cons e rest => simp [segmentRuns, segLoop_flatten, runStart]
  refine ⟨h, ?_⟩
  have hperm : ((segmentRuns l).reverse).Perm (segmentRuns l) := List.reverse_perm _
  have := (hperm.map RunAcc.entries).flatten
  rwa [h] at this

/-- Ranks of `l` are consecutive integers starting at `start`. -/
def RanksFrom (start : Nat) (l : List DbChatHistory) : Prop :=
  ∀ i e, l[i]? = some e → e.chat_rank = start + i

theorem ranksFrom_append_singleton {start : Nat} {l : List DbChatHistory}
    {p e : DbChatHistory} (hr : RanksFrom start l) (hlast : l.getLast? = some p)
    (he : e.chat_rank = p.chat_rank + 1) : RanksFrom start (l ++ [e]) := by
  have hne : l ≠ [] := by
    intro h; rw [h] at hlast; simp at hlast
  have hlen : 0 < l.length := List.length_pos.mpr hne
  intro i x hx
  rw [List.getElem?_append] at hx
  by_cases hi : i < l.length
  · rw [if_pos hi] at hx
    exact hr i x hx
  · rw [if_neg hi] at hx
    have hi0 : i - l.length = 0 := by
      rcases List.getElem?_eq_some_iff.mp hx with ⟨hlt, _⟩
      simpa using Nat.lt_one_iff.mp (by simpa using hlt)
    rw [hi0] at hx
    simp only [List.getElem?_cons_zero, Option.some.injEq] at hx
    have hplast : p.chat_rank = start + (l.length - 1) := by
      have := List.getLast?_eq_getElem? l
      rw [hlast] at this
      exact hr (l.length - 1) p this.symm
    have hieq : i = l.length := by omega
    subst hx
    omega

theorem segLoop_runs_ranks (rest : List DbChatHistory) :
    ∀ prev cur, cur.entries.getLast? = some prev → RanksFrom cur.startRank cur.entries →
    ∀ r ∈ segLoop prev cur rest, r.entries ≠ [] ∧ RanksFrom r.startRank r.entries := by
  induction rest with
  | nil =>
    intro prev cur hlast hranks r hr
    simp only [segLoop, List.mem_singleton] at hr
    subst hr
    refine ⟨?_, hranks⟩
    intro h; rw [h] at hlast; simp at hlast
  | cons e rest ih =>
    intro prev cur hlast hranks r hr
    simp only [segLoop] at hr
    by_cases h : e.chat_rank = prev.chat_rank + 1
    · rw [if_pos h] at hr
      refine ih e _ ?_ ?_ r hr
      · simp
      · exact ranksFrom_append_singleton hranks hlast h
    · rw [if_neg h] at hr
      rcases List.mem_cons.mp hr with rfl | hr'
      · refine ⟨?_, hranks⟩
        intro hnil; rw [hnil] at hlast; simp at hlast
      · refine ih e (runStart e) (by simp [runStart]) ?_ r hr'
        intro i x hx
        cases i with
        | zero => simp [runStart] at hx; simp [runStart, ← hx]
        | succ j => simp [runStart] at hx

theorem segmentRuns_ranks (l : List DbChatHistory) :
    ∀ r ∈ segmentRuns l, r.entries ≠ [] ∧ RanksFrom r.startRank r.entries := by
  cases l with
  | nil => simp [segmentRuns]
  | cons e rest =>
    intro r hr
    refine segLoop_runs_ranks rest e (runStart e) (by simp [runStart]) ?_ r hr
    intro i x hx
    cases i with
    | zero => simp [runStart] at hx; simp [runStart, ← hx]
    | succ j => simp [runStart] at hx

/-- C7: in every run the segmenter produces, the entry at index `i` has rank
exactly `i` more than the entry at index 0 — a conversation's entries are
consecutive integers in ascending order. -/
theorem segmenter_contiguity (l : List DbChatHistory) (r : RunAcc)
    (hr : r ∈ segmentRuns l) (i : Nat) (hi : i < r.entries.length)
    (h0 : 0 < r.entries.length) :
    (r.entries.get ⟨i, hi⟩).chat_rank = (r.entries.get ⟨0, h0⟩).chat_rank + i := by
  obtain ⟨hne, hranks⟩ := segmentRuns_ranks l r hr
  have h1 := hranks i (r.entries.get ⟨i, hi⟩)
    (by rw [List.get_eq_getElem]; exact List.getElem?_eq_getElem hi)
  have h2 := hranks 0 (r.entries.get ⟨0, h0⟩)
    (by rw [List.get_eq_getElem]; exact List.getElem?_eq_getElem h0)
  omega

theorem segmenter_contiguity_witness :
    ((⟨1, [sampleEntry 1, sampleEntry 2], "conv_1"⟩ : RunAcc).entries.get
        ⟨1, by decide⟩).chat_rank =
      ((⟨1, [sampleEntry 1, sampleEntry 2], "conv_1"⟩ : RunAcc).entries.get
        ⟨0, by decide⟩).chat_rank + 1 :=
  segmenter_contiguity [sampleEntry 1, sampleEntry 2]
    ⟨1, [sampleEntry 1, sampleEntry 2], "conv_1"⟩ (by decide) 1 (by decide) (by decide)

/-! ### Message expansion -/

theorem flatMap_expand_length (f : String → String) (l : List DbChatHistory) :
    (l.flatMap (expandEntry f)).length = 2 * l.length := by
  induction l with
  | nil => simp
  | cons e t ih => simp [expandEntry, ih]; omega

theorem flatMap_expand_getElem (f : String → String) (l : List DbChatHistory) :
    ∀ i, (l.flatMap (expandEntry f))[2 * i]? = (l[i]?).map (userMessageOf f) ∧
      (l.flatMap (expandEntry f))[2 * i + 1]? = (l[i]?).map (assistantMessageOf f) := by
  induction l with
  | nil => simp
  | cons e t ih =>
    intro i
    cases i with
    | zero => simp [expandEntry]
    | succ j =>
      have hstep := ih j
      have h2 : 2 * (j + 1) = (2 * j + 1) + 1 := by omega
      rw [h2]
      simp only [List.flatMap_cons, expandEntry, List.cons_append, List.nil_append,
        List.getElem?_cons_succ]
      exact hstep

/-- C8: the message list of a segmented conversation holds, for the entry at
index `i`, the user message `${chat_id}_user` carrying `user_request` at
position `2 i` and the assistant message `${chat_id}_assistant` carrying
`ai_response` right after it at position `2 i + 1`; with the length equation
each entry contributes exactly these two messages. -/
theorem conversation_message_expansion (f g : String → String) (data : RunAcc)
    (i : Nat) (hi : i < data.entries.length) :
    ((createConversationFromEntries f g data).messages).length = 2 * data.entries.length ∧
    ((createConversationFromEntries f g data).messages)[2 * i]? =
      some { id := (data.entries.get ⟨i, hi⟩).chat_id ++ "_user",
             content := (data.entries.get ⟨i, hi⟩).user_request,
             role := Role.user,
             timestamp := f (data.entries.get ⟨i, hi⟩).created_at,
             attachments := none } ∧
    ((createConversationFromEntries f g data).messages)[2 * i + 1]? =
      some { id := (data.entries.get ⟨i, hi⟩).chat_id ++ "_assistant",
             content := (data.entries.get ⟨i, hi⟩).ai_response,
             role := Role.assistant,
             timestamp := f (data.entries.get ⟨i, hi⟩).created_at,
             attachments := none } := by
  have hmsg : (createConversationFromEntries f g data).messages
      = data.entries.flatMap (expandEntry f) := rfl
  obtain ⟨hu, ha⟩ := flatMap_expand_getElem f data.entries i
  have hidx : data.entries[i]? = some (data.entries.get ⟨i, hi⟩) := by
    rw [List.get_eq_getElem]
    exact List.getElem?_eq_getElem hi
  refine ⟨by rw [hmsg]; exact flatMap_expand_length f data.entries, ?_, ?_⟩
  · rw [hmsg, hu, hidx]
    rfl
  · rw [hmsg, ha, hidx]
    rfl

theorem conversation_message_expansion_witness :
    ((createConversationFromEntries id id
        ⟨1, [sampleEntry 1], "conv_1"⟩).messages).length = 2 * 1 ∧
    ((createConversationFromEntries id id ⟨1, [sampleEntry 1], "conv_1"⟩).messages)[0]? =
      some { id := (sampleEntry 1).chat_id ++ "_user",
             content := (sampleEntry 1).user_request, role := Role.user,
             timestamp := id (sampleEntry 1).created_at, attachments := none } ∧
    ((createConversationFromEntries id id ⟨1, [sampleEntry 1], "conv_1"⟩).messages)[1]? =
      some { id := (sampleEntry 1).chat_id ++ "_assistant",
             content := (sampleEntry 1).ai_response, role := Role.assistant,
             timestamp := id (sampleEntry 1).created_at, attachments := none } :=
  conversation_message_expansion id id ⟨1, [sampleEntry 1], "conv_1"⟩ 0 (by decide)

/-! ### Round trip between the segmenter and the single-conversation read -/

theorem segLoop_decomp (rest : List DbChatHistory) :
    ∀ prev cur, cur.entries.getLast? = some prev →
    ∀ r ∈ segLoop prev cur rest,
      ∃ pre post, cur.entries ++ rest = pre ++ r.entries ++ post ∧
        ∀ p ps, post = p :: ps → ∀ lastE, r.entries.getLast? = some lastE →
          p.chat_rank ≠ lastE.chat_rank + 1 := by
  induction rest with
  | nil =>
    intro prev cur hlast r hr
    simp only [segLoop, List.mem_singleton] at hr
    subst hr
    exact ⟨[], [], by simp, by intro p ps hps; cases hps⟩
  | cons e rest ih =>
    intro prev cur hlast r hr
    simp only [segLoop] at hr
    by_cases h : e.chat_rank = prev.chat_rank + 1
    · rw [if_pos h] at hr
      obtain ⟨pre, post, heq, hbrk⟩ := ih e { cur with entries := cur.entries ++ [e] }
        (by simp) r hr
      refine ⟨pre, post, ?_, hbrk⟩
      simpa [List.append_assoc] using heq
    · rw [if_neg h] at hr
      rcases List.mem_cons.mp hr with rfl | hr'
      · refine ⟨[], e :: rest, by simp, ?_⟩
        intro p ps hps lastE hlastE
        injection hps with h1 h2
        subst h1
        rw [hlast] at hlastE
        injection hlastE with h3
        subst h3
        exact h
      · obtain ⟨pre, post, heq, hbrk⟩ := ih e (runStart e) (by simp [runStart]) r hr'
        refine ⟨cur.entries ++ pre, post, ?_, hbrk⟩
        simp only [runStart] at heq
        rw [List.append_assoc, List.append_assoc]
        rw [List.append_assoc] at heq
        simpa using congrArg (cur.entries ++ ·) heq

theorem segmentRuns_decomp (l : List DbChatHistory) (r : RunAcc)
    (hr : r ∈ segmentRuns l) :
    ∃ pre post, l = pre ++ r.entries ++ post ∧
      ∀ p ps, post = p :: ps → ∀ lastE, r.entries.getLast? = some lastE →
        p.chat_rank ≠ lastE.chat_rank + 1 := by
  cases l with
  | nil => simp [segmentRuns] at hr
  | cons e rest =>
    obtain ⟨pre, post, heq, hbrk⟩ := segLoop_decomp rest e (runStart e)
      (by simp [runStart]) r hr
    exact ⟨pre, post, by simpa [runStart] using heq, hbrk⟩

theorem filter_ge_decomp {pre ent post : List DbChatHistory} {start : Nat}
    (hp : (pre ++ ent ++ post).Pairwise (fun a b => a.chat_rank < b.chat_rank))
    (hne : ent ≠ []) (hranks : RanksFrom start ent) :
    (pre ++ ent ++ post).filter (fun row => start ≤ row.chat_rank) = ent ++ post := by
  obtain ⟨h0, t0, rfl⟩ : ∃ h0 t0, ent = h0 :: t0 := by
    cases ent with
    | nil => exact absurd rfl hne
    | cons a t => exact ⟨a, t, rfl⟩
  have hh0 : h0.chat_rank = start := by
    have := hranks 0 h0 (by simp)
    omega
  rw [List.pairwise_append] at hp
  obtain ⟨hpe, hpost, hcross⟩ := hp
  rw [List.pairwise_append] at hpe
  obtain ⟨hpre, hent, hcross2⟩ := hpe
  rw [List.filter_append, List.filter_append]
  have h1 : pre.filter (fun row => start ≤ row.chat_rank) = [] := by
    rw [List.filter_eq_nil_iff]
    intro a ha
    have : a.chat_rank < h0.chat_rank := hcross2 a ha h0 (by simp)
    simp only [decide_eq_true_eq]
    omega
  have h2 : (h0 :: t0).filter (fun row => start ≤ row.chat_rank) = h0 :: t0 := by
    rw [List.filter_eq_self]
    intro a ha
    obtain ⟨i, hi, hget⟩ := List.mem_iff_getElem.mp ha
    have := hranks i a (by rw [List.getElem?_eq_getElem hi, hget])
    simp only [decide_eq_true_eq]
    omega
  have h3 : post.filter (fun row => start ≤ row.chat_rank) = post := by
    rw [List.filter_eq_self]
    intro a ha
    have : h0.chat_rank < a.chat_rank :=
      hcross h0 (List.mem_append.mpr (Or.inr (by simp))) a ha
    simp only [decide_eq_true_eq]
    omega
  rw [h1, h2, h3, List.nil_append]

theorem collectRun_append_exact (ent : List DbChatHistory) :
    ∀ (start : Nat) (post : List DbChatHistory), RanksFrom start ent →
      (∀ p ps, post = p :: ps → p.chat_rank ≠ start + ent.length) →
      collectRun start (ent ++ post) = ent := by
  induction ent with
  | nil =>
    intro start post _ hbrk
    cases post with
    | nil => simp [collectRun]
    | cons p ps =>
      have hp := hbrk p ps rfl
      simp only [List.nil_append, collectRun]
      rw [if_neg (by simpa using hp)]
  | cons a t ih =>
    intro start post hranks hbrk
    have ha : a.chat_rank = start := by
      have := hranks 0 a (by simp)
      omega
    simp only [List.cons_append, collectRun]
    rw [if_pos ha]
    congr 1
    refine ih (start + 1) post ?_ ?_
    · intro i x hx
      have := hranks (i + 1) x (by simpa using hx)
      omega
    · intro p ps hps
      have := hbrk p ps hps
      simp only [List.length_cons] at this
      omega

/-- C10: for a single user's rank-ascending log (ranks strictly increasing:
the unique index on `(user_id, chat_rank)` plus the ascending query order),
reading any conversation `fetchConversations` produced back through
`getConversationMessages`, with a token naming its `startRank`, returns
exactly that conversation's message list — the run grouping of
`fetchConversations` and the `expectedRank` walk of `getConversationMessages`
select the same maximal contiguous run and expand it identically. -/
theorem fetch_read_round_trip (f g : String → String) (l : List DbChatHistory)
    (hs : l.Pairwise (fun a b => a.chat_rank < b.chat_rank))
    (c : Conversation) (hc : c ∈ fetchConversations f g l)
    (cid : String) (hcid : parseConversationRank cid = some c.startRank) :
    getConversationMessages f l cid = c.messages := by
  rw [fetchConversations, List.mem_reverse, List.mem_map] at hc
  obtain ⟨r, hr, rfl⟩ := hc
  obtain ⟨hne, hranks⟩ := segmentRuns_ranks l r hr
  obtain ⟨pre, post, heq, hbrk⟩ := segmentRuns_decomp l r hr
  have hstart : (createConversationFromEntries f g r).startRank = r.startRank := rfl
  have hmsgs : (createConversationFromEntries f g r).messages
      = r.entries.flatMap (expandEntry f) := rfl
  rw [hstart] at hcid
  rw [getConversationMessages, hcid]
  have hfilter : l.filter (fun row => r.startRank ≤ row.chat_rank) = r.entries ++ post := by
    rw [heq]
    exact filter_ge_decomp (heq ▸ hs) hne hranks
  simp only [hfilter]
  have hnonempty : (r.entries ++ post).isEmpty = false := by
    cases hent : r.entries with
    | nil => exact absurd hent hne
    | cons a t => simp [hent]
  rw [if_neg (by simp [hnonempty])]
  have hcollect : collectRun r.startRank (r.entries ++ post) = r.entries := by
    refine collectRun_append_exact r.entries r.startRank post hranks ?_
    intro p ps hps
    obtain ⟨lastE, hlastE⟩ : ∃ lastE, r.entries.getLast? = some lastE := by
      cases hent : r.entries with
      | nil => exact absurd hent hne
      | cons a t => exact ⟨(a :: t).getLast (by simp), List.getLast?_eq_getLast _ _⟩
    have hlen : 0 < r.entries.length := List.length_pos.mpr hne
    have hlastrank : lastE.chat_rank = r.startRank + (r.entries.length - 1) := by
      have hg := List.getLast?_eq_getElem? r.entries
      rw [hlastE] at hg
      exact hranks (r.entries.length - 1) lastE hg.symm
    have := hbrk p ps hps lastE hlastE
    omega
  rw [hcollect, hmsgs]

set_option maxRecDepth 8192 in
theorem fetch_read_round_trip_witness :
    getConversationMessages id [sampleEntry 1] "conv_1" =
      ({ id := "conv_1", title := "q1", timestamp := "t", preview := "q1",
         messages := [{ id := "u1_user", content := "q1", role := Role.user,
                        timestamp := "t", attachments := none },
                      { id := "u1_assistant", content := "a1", role := Role.assistant,
                        timestamp := "t", attachments := none }],
         sessionId := "conv_1", startRank := 1 } : Conversation).messages :=
  fetch_read_round_trip id id [sampleEntry 1] (by simp)
    { id := "conv_1", title := "q1", timestamp := "t", preview := "q1",
      messages := [{ id := "u1_user", content := "q1", role := Role.user,
                     timestamp := "t", attachments := none },
                   { id := "u1_assistant", content := "a1", role := Role.assistant,
                     timestamp := "t", attachments := none }],
      sessionId := "conv_1", startRank := 1 }
    (by decide) "conv_1" (by decide)
